import Mathlib

/-!
Shallow embedding of the `no-sails` ESLint rule (src/index.js) and proofs
about its decision logic.

The host (ESLint) supplies the parse tree, the scope graph and the
traversal; the rule consults only a small slice of those structures, which
is what the data model below embeds:

* `Loc`, `PropNode`, `NodeKind`, `ASTNode` — the syntax-node fields the rule
  reads (`type`, `computed`, `key` / `property`, `loc`);
* `RefIdentifier`, `Reference`, `Variable`, `Scope` — the eslint-scope
  fields the rule reads (`identifier`, `parent`, `defs`, `references`,
  `set`, `through`, `upper`).  A scope's null-terminated `upper` chain is
  represented as a Lean list (innermost scope first).

JS-specific points of the embedding, noted where they occur:
* `String(v)` coercion of a literal value is `LitValue.jsToString`
  (numeric literals are modelled at integer precision; their `String`
  form is the decimal rendering, as in JS for integers);
* the truthiness test `propertyName && ...` in `isAllowed` is the explicit
  check that the extracted name is not the empty string (the only falsy
  string) and not `null`;
* object identity `parent.object === node` is not representable in a
  tree-of-values embedding; the host-maintained fact "this identifier is
  the object child of its parent node" is carried on the reference as the
  field `isObjectOfParent`;
* in eslint-scope every `Reference` carries an identifier node, so the
  defensive `id &&` guard of `isSails` is always satisfied and the
  embedding makes the field total.
-/

namespace NoSails

/-- A source location (`node.loc`); the rule only copies it into the
diagnostic, so its internal shape is irrelevant. -/
structure Loc where
  line : Nat
  column : Nat
deriving DecidableEq, Repr

/-- The runtime value carried by a `Literal` AST node, as far as the rule
consults it: `String(prop.value)` is taken of it.  Numbers are modelled at
integer precision (the rule's own doc gives only integer examples). -/
inductive LitValue where
  | str (s : String)
  | num (n : Int)
  | bool (b : Bool)
  | nullLit
deriving DecidableEq, Repr

/-- JS `String(v)` on a literal's value: strings pass through, numbers
render in decimal, `true` / `false` / `null` render as their keywords. -/
def LitValue.jsToString : LitValue → String
  | .str s => s
  | .num n => toString n
  | .bool b => if b then "true" else "false"
  | .nullLit => "null"

/-- The key / property sub-node inspected by `getStaticPropertyName`:
a `Literal`, a `TemplateLiteral` (of which only the number of embedded
expressions and the cooked quasi strings are consulted), an `Identifier`,
or any other expression kind (binary expression, call, tagged template,
...), which the source's `switch` sends to its default branch. -/
inductive PropNode where
  | literal (value : LitValue)
  | templateLiteral (exprCount : Nat) (quasis : List String)
  | identifier (name : String)
  | other
deriving DecidableEq, Repr

/-- The `type`-tagged shape of the nodes `getStaticPropertyName` can
receive: `Property` and `MethodDefinition` contribute their `key`,
`MemberExpression` its `property`; anything else falls through to the
`null` return. -/
inductive NodeKind where
  | property (computed : Bool) (key : PropNode)
  | methodDefinition (computed : Bool) (key : PropNode)
  | memberExpression (computed : Bool) (property : PropNode)
  | otherNode
deriving DecidableEq, Repr

/-- An AST node as the rule sees it: a location plus its kind. -/
structure ASTNode where
  loc : Loc
  kind : NodeKind
deriving DecidableEq, Repr

/-- `node.computed`; a node kind without that field reads as `undefined`,
which is falsy. -/
def ASTNode.computed (n : ASTNode) : Bool :=
  match n.kind with
  | .property c _ => c
  | .methodDefinition c _ => c
  | .memberExpression c _ => c
  | .otherNode => false

/-- The identifier node of a reference, with its host-maintained `parent`
back-link.  `isObjectOfParent` records `parent.object === node` (object
identity, supplied by the parser, is not otherwise representable in a
tree-of-values embedding). -/
structure RefIdentifier where
  name : String
  parent : ASTNode
  isObjectOfParent : Bool
deriving DecidableEq, Repr

/-- A single syntactic occurrence of an identifier (eslint-scope
`Reference`). -/
structure Reference where
  identifier : RefIdentifier
deriving DecidableEq, Repr

/-- An eslint-scope `Variable`: the rule consults only `defs.length` (here
`defs`, the number of Definitions) and the ordered reference list. -/
structure Variable where
  defs : Nat
  references : List Reference
deriving DecidableEq, Repr

/-- One frame of the scope chain: the name-to-variable map `set` and the
unresolved-reference list `through` (only read on the starting scope). -/
structure Scope where
  set : List (String × Variable)
  through : List Reference
deriving DecidableEq, Repr

/-- `scope.set.get(name)` on the association-list model of the map. -/
def scopeSetGet (set : List (String × Variable)) (name : String) : Option Variable :=
  match set.find? (fun p => p.1 == name) with
  | some p => some p.2
  | none => none

/-- `getVariableByName` (src/index.js lines 208-222): walk the scope chain
(innermost first; the null-terminated `upper` chain is the tail of the
list) until a scope's `set` contains the name. -/
def getVariableByName (chain : List Scope) (name : String) : Option Variable :=
  match chain with
  | [] => none
  | scope :: upper =>
    match scopeSetGet scope.set name with
    | some v => some v
    | none => getVariableByName upper name

/-- `getStaticPropertyName` (src/index.js lines 167-199). -/
def getStaticPropertyName (node : ASTNode) : Option String :=
  let prop : Option PropNode :=
    match node.kind with
    | .property _ key => some key
    | .methodDefinition _ key => some key
    | .memberExpression _ property => some property
    | .otherNode => none
  match prop with
  | some (.literal v) => some v.jsToString
  | some (.templateLiteral exprCount quasis) =>
    match exprCount, quasis with
    | 0, [cooked] => some cooked
    | _, _ => none
  | some (.identifier name) => if !node.computed then some name else none
  | _ => none

/-- The outbound structured diagnostic of `context.report` as the rule
fills it: the offending node, its location, the message-template id and
the interpolation payload `data.propertyName` (a JS string or `null`,
hence `Option String`). -/
structure Diagnostic where
  node : ASTNode
  loc : Loc
  messageId : String
  propertyName : Option String
deriving DecidableEq, Repr

/-- `meta.messages` (src/index.js lines 37-39).  The template's literal
braces are written with `\x7b` / `\x7d` escapes. -/
def metaMessages : List (String × String) :=
  [("unexpected", "Unexpected sails.\x7b\x7bpropertyName\x7d\x7d")]

/-- `isSails` (src/index.js lines 51-55): the reference's identifier is
named `sails`.  (eslint-scope guarantees the identifier node exists, so
the defensive `id &&` guard is always satisfied.) -/
def isSails (reference : Reference) : Bool :=
  reference.identifier.name == "sails"

/-- `isAllowed` (src/index.js lines 64-68):
`propertyName && allowed.indexOf(propertyName) !== -1`.
A `null` name (indeterminate) and the empty string — the only falsy
string — short-circuit the `&&` to a falsy result, so the allow-list is
consulted only for a non-empty extracted name. -/
def isAllowed (allowed : List String) (node : ASTNode) : Bool :=
  match getStaticPropertyName node with
  | none => false
  | some propertyName => propertyName != "" && allowed.contains propertyName

/-- `isMemberAccessExceptAllowed` (src/index.js lines 78-87): the
reference's parent is a `MemberExpression`, the identifier is its
`object` child, and the access is not allowed by the options. -/
def isMemberAccessExceptAllowed (allowed : List String) (reference : Reference) : Bool :=
  let node := reference.identifier
  let parent := node.parent
  match parent.kind with
  | .memberExpression _ _ => node.isObjectOfParent && !(isAllowed allowed parent)
  | _ => false

/-- `report` (src/index.js lines 95-105): emit one diagnostic attached to
the member-access parent, at its location, with message id `unexpected`
and payload `propertyName` recomputed by the extractor. -/
def report (reference : Reference) : Diagnostic :=
  let node := reference.identifier.parent
  let propertyName := getStaticPropertyName node
  { node := node
    loc := node.loc
    messageId := "unexpected"
    propertyName := propertyName }

/-- The `Program:exit` handler (src/index.js lines 108-125), as a function
from the captured options and the completed scope graph (the current
scope and its `upper` chain) to the ordered list of emitted diagnostics.
`shadowed` embeds the truthy test `consoleVar && consoleVar.defs.length > 0`. -/
def programExit (allowed : List String) (scope : Scope) (uppers : List Scope) :
    List Diagnostic :=
  let consoleVar := getVariableByName (scope :: uppers) "sails"
  let shadowed : Bool :=
    match consoleVar with
    | some v => decide (0 < v.defs)
    | none => false
  let references :=
    match consoleVar with
    | some v => v.references
    | none => scope.through.filter isSails
  if !shadowed then
    (references.filter (isMemberAccessExceptAllowed allowed)).map report
  else
    []

/-- The `shadowed` local of the handler (src/index.js line 111), as a
function of the scope graph: the truthy test
`consoleVar && consoleVar.defs.length > 0`. -/
def sailsShadowed (scope : Scope) (uppers : List Scope) : Bool :=
  match getVariableByName (scope :: uppers) "sails" with
  | some v => decide (0 < v.defs)
  | none => false

/-- The `references` local of the handler (src/index.js lines 118-120),
as a function of the scope graph: the found variable's reference list,
or — when `sails` is not declared in any scope — the references to the
undefined variable, `scope.through.filter(isSails)`. -/
def sailsReferences (scope : Scope) (uppers : List Scope) : List Reference :=
  match getVariableByName (scope :: uppers) "sails" with
  | some v => v.references
  | none => scope.through.filter isSails

/-!
## Configuration

`meta.schema` (src/index.js lines 21-36) is a JSON-Schema fragment
validated host-side; its meaning is embedded below as a validity
predicate over a minimal JSON value model.  `create`'s option
extraction (lines 42-43) runs after validation, on the decoded option
objects.
-/

/-- A minimal JSON value, enough to state what the schema accepts. -/
inductive Json where
  | str (s : String)
  | num (n : Int)
  | bool (b : Bool)
  | nullJ
  | arr (items : List Json)
  | obj (fields : List (String × Json))
deriving BEq, Repr

/-- Whether a JSON value is a string (`items: \x7b type: "string" \x7d`). -/
def isStringJson : Json → Bool
  | .str _ => true
  | _ => false

/-- `uniqueItems: true`: the array's elements are pairwise distinct. -/
def jsonNodup : List Json → Bool
  | [] => true
  | x :: xs => !(xs.contains x) && jsonNodup xs

/-- The schema of the `allow` property (src/index.js lines 25-32):
`type: "array"`, every item a string, `minItems: 1` (the array has at
least one element), `uniqueItems: true`. -/
def allowPropertyValid : Json → Bool
  | .arr items => items.all isStringJson && decide (1 ≤ items.length) && jsonNodup items
  | _ => false

/-- The schema's single object entry (src/index.js lines 22-35):
`type: "object"`, the only permitted property is `allow`
(`additionalProperties: false`), and it must satisfy its schema; the
property itself is optional. -/
def optionObjectValid : Json → Bool
  | .obj fields => fields.all (fun kv => kv.1 == "allow" && allowPropertyValid kv.2)
  | _ => false

/-- The whole options array against `meta.schema`, under ESLint's
array-schema convention: at most as many options as schema entries (here
one), each validated positionally. -/
def optionsValid : List Json → Bool
  | [] => true
  | [o] => optionObjectValid o
  | _ => false

/-- `create`'s view of one validated option object: the optional `allow`
array of strings. -/
structure RuleOptionObj where
  allow : Option (List String)
deriving DecidableEq, Repr

/-- The option extraction of `create` (src/index.js lines 42-43):
`context.options[0] || \x7b\x7d` then `options.allow || []`.  A missing
first option reads as the empty object; a missing `allow` field reads as
the empty list (a present array is truthy, even when empty). -/
def createAllowed (options : List RuleOptionObj) : List String :=
  match options.head? with
  | none => []
  | some o => o.allow.getD []

/-!
## Spec-comparison validators for the configuration schema

`optionsValidClaimed` follows the specification sentence word for word
("an array of unique, non-empty strings"): the strings must be
non-empty, and nothing requires the array itself to be non-empty.
`optionsValidAmended` follows the amended sentence ("a non-empty array
of unique strings"): `minItems: 1` constrains the array, and the
strings may be empty.  Both are compared against `optionsValid`, the
embedding of the source's `meta.schema`.
-/

/-- The spec's claimed `allow` schema: unique, non-empty strings (no
constraint on the array's length). -/
def allowPropertyValidClaimed : Json → Bool
  | .arr items =>
    jsonNodup items
      && items.all (fun j => match j with | .str s => s != "" | _ => false)
  | _ => false

/-- The spec's claimed object schema: only the `allow` property, valid
per `allowPropertyValidClaimed`. -/
def optionObjectValidClaimed : Json → Bool
  | .obj fields => fields.all (fun kv => kv.1 == "allow" && allowPropertyValidClaimed kv.2)
  | _ => false

/-- The spec's claimed options schema: at most one object. -/
def optionsValidClaimed : List Json → Bool
  | [] => true
  | [o] => optionObjectValidClaimed o
  | _ => false

/-- The amended `allow` schema: a non-empty array of unique strings (the
strings themselves may be empty). -/
def allowPropertyValidAmended : Json → Bool
  | .arr items => !items.isEmpty && jsonNodup items && items.all isStringJson
  | _ => false

/-- The amended object schema: only the `allow` property, valid per
`allowPropertyValidAmended`. -/
def optionObjectValidAmended : Json → Bool
  | .obj fields => fields.all (fun kv => kv.1 == "allow" && allowPropertyValidAmended kv.2)
  | _ => false

/-- The amended options schema: at most one object. -/
def optionsValidAmended : List Json → Bool
  | [] => true
  | [o] => optionObjectValidAmended o
  | _ => false

/-!
## Concrete program instances

Tiny scope graphs used by the witnesses and counterexamples.  Each is
the scope graph ESLint would hand the rule for the one-line program
named in its comment.
-/

/-- `sails[""]` with the variable unshadowed (zero Definitions), for the
C2 counterexample. -/
def c2Parent : ASTNode := ⟨⟨3, 4⟩, .memberExpression true (.literal (.str ""))⟩

def c2Ref : Reference := ⟨⟨"sails", c2Parent, true⟩⟩

def c2Scope : Scope := ⟨[("sails", ⟨0, [c2Ref]⟩)], []⟩

/-- `sails.hook` with `sails` unshadowed, for the C2 amended witness. -/
def c2wParent : ASTNode := ⟨⟨2, 1⟩, .memberExpression false (.identifier "hook")⟩

def c2wRef : Reference := ⟨⟨"sails", c2wParent, true⟩⟩

def c2wVar : Variable := ⟨0, [c2wRef]⟩

def c2wScope : Scope := ⟨[("sails", c2wVar)], []⟩

/-- `sails["a" + "b"]` (an indeterminate, non-literal key) with `sails`
never declared in any scope: the reference is unresolved and sits in the
scope's `through` set, for the C3 witness. -/
def c3Parent : ASTNode := ⟨⟨4, 1⟩, .memberExpression true .other⟩

def c3Ref : Reference := ⟨⟨"sails", c3Parent, true⟩⟩

def c3Scope : Scope := ⟨[], [c3Ref]⟩

/-- `sails[key]` (a computed identifier key), for the C9 counterexample. -/
def c9Parent : ASTNode := ⟨⟨5, 2⟩, .memberExpression true (.identifier "key")⟩

def c9Ref : Reference := ⟨⟨"sails", c9Parent, true⟩⟩

def c9Scope : Scope := ⟨[("sails", ⟨0, [c9Ref]⟩)], []⟩

/-- `sails.models` with `sails` never declared in any scope: the
reference is unresolved and sits in the scope's `through` set, for the
C9 amended witness. -/
def c9wParent : ASTNode := ⟨⟨7, 0⟩, .memberExpression false (.identifier "models")⟩

def c9wRef : Reference := ⟨⟨"sails", c9wParent, true⟩⟩

def c9wScope : Scope := ⟨[], [c9wRef]⟩

/-- `sails[""]` with `""` on the allow-list, for the C10 witness. -/
def c10Parent : ASTNode := ⟨⟨6, 3⟩, .memberExpression true (.literal (.str ""))⟩

def c10Ref : Reference := ⟨⟨"sails", c10Parent, true⟩⟩

def c10Var : Variable := ⟨0, [c10Ref]⟩

def c10Scope : Scope := ⟨[("sails", c10Var)], []⟩

/-- `function f(sails) \x7b sails.hook(); \x7d`: `sails` declared (one
Definition) and referenced as the object of `sails.hook`, for the C1
witness. -/
def shadowParent : ASTNode := ⟨⟨1, 0⟩, .memberExpression false (.identifier "hook")⟩

def shadowRef : Reference := ⟨⟨"sails", shadowParent, true⟩⟩

def shadowVar : Variable := ⟨1, [shadowRef]⟩

def shadowScope : Scope := ⟨[("sails", shadowVar)], []⟩

/-- `sails.lift` with `sails` unshadowed, for the C8 determinism
witness. -/
def detParent : ASTNode := ⟨⟨2, 0⟩, .memberExpression false (.identifier "lift")⟩

def detRef : Reference := ⟨⟨"sails", detParent, true⟩⟩

def detScope : Scope := ⟨[("sails", ⟨0, [detRef]⟩)], []⟩

/-!
## Helper lemmas
-/

/-- When `sails` is not shadowed — whether the variable is found with
zero Definitions (the host's synthetic record for an unresolved global)
or absent entirely (its references coming from `scope.through`) — the
handler reports exactly the non-allowed member-access references among
`sailsReferences`, in order. -/
theorem programExit_eq_of_not_shadowed (allowed : List String) (scope : Scope)
    (uppers : List Scope) (hsh : sailsShadowed scope uppers = false) :
    programExit allowed scope uppers
      = ((sailsReferences scope uppers).filter (isMemberAccessExceptAllowed allowed)).map
          report := by
  cases hfind : getVariableByName (scope :: uppers) "sails" with
  | none => simp [programExit, sailsReferences, hfind]
  | some v =>
    have hdefs : v.defs = 0 := by
      simp [sailsShadowed, hfind] at hsh
      omega
    simp [programExit, sailsReferences, hfind, hdefs]

/-- An element failing the filter predicate contributes nothing to the
filtered list. -/
theorem count_filter_of_neg {α : Type} [DecidableEq α] (p : α → Bool)
    (l : List α) (a : α) (h : p a = false) : (l.filter p).count a = 0 := by
  rw [List.count_eq_zero]
  intro hmem
  have h2 := (List.mem_filter.mp hmem).2
  rw [h] at h2
  exact Bool.noConfusion h2

/-- The reference is flagged when its parent is a member access, the
identifier is the object side, and the access is not allowed. -/
theorem isMemberAccess_true_of_not_allowed (allowed : List String)
    (r : Reference) (c : Bool) (p : PropNode)
    (hkind : r.identifier.parent.kind = NodeKind.memberExpression c p)
    (hobj : r.identifier.isObjectOfParent = true)
    (hnotallowed : isAllowed allowed r.identifier.parent = false) :
    isMemberAccessExceptAllowed allowed r = true := by
  simp [isMemberAccessExceptAllowed, hkind, hobj, hnotallowed]

/-!
## Claims
-/

/-- C1: whenever a variable named `sails` is found in the scope chain with
one or more Definitions (the restricted identifier is locally declared or
shadowed), the rule emits no diagnostic at all, regardless of the
allow-list contents. -/
theorem C1_shadowing_suppresses_all_reporting
    (allowed : List String) (scope : Scope) (uppers : List Scope) (v : Variable)
    (hfind : getVariableByName (scope :: uppers) "sails" = some v)
    (hdefs : 0 < v.defs) :
    programExit allowed scope uppers = [] := by
  simp [programExit, hfind, hdefs]

/-- C1 witness: the shadowed `sails.hook` use produces no diagnostics even
with a non-trivial allow-list. -/
theorem C1_witness : programExit ["config"] shadowScope [] = [] :=
  C1_shadowing_suppresses_all_reporting ["config"] shadowScope [] shadowVar
    (by decide) (by decide)

/-- C4: the extractor coerces a literal key's value to a string via JS
`String(...)`; a numeric literal becomes its decimal string form, so the
computed access `sails[100]` is treated identically to `sails["100"]`
both by the extractor and by the allow-list check. -/
theorem C4_numeric_literal_coercion (l : Loc) (c : Bool) (n : Int)
    (allowed : List String) :
    getStaticPropertyName ⟨l, .memberExpression c (.literal (.num n))⟩
      = some (toString n)
    ∧ getStaticPropertyName ⟨l, .memberExpression c (.literal (.num 100))⟩
      = getStaticPropertyName ⟨l, .memberExpression c (.literal (.str "100"))⟩
    ∧ isAllowed allowed ⟨l, .memberExpression c (.literal (.num 100))⟩
      = isAllowed allowed ⟨l, .memberExpression c (.literal (.str "100"))⟩ := by
  refine ⟨rfl, rfl, ?_⟩
  have h100 : toString (100 : Int) = "100" := rfl
  simp [isAllowed, getStaticPropertyName, LitValue.jsToString, h100]

/-- C5: a template-string key yields the cooked value of its single
segment exactly when it has zero embedded expressions and exactly one
literal segment; any other template string is indeterminate. -/
theorem C5_template_single_segment (l : Loc) (c : Bool) (e : Nat)
    (q : List String) :
    getStaticPropertyName ⟨l, .memberExpression c (.templateLiteral e q)⟩
      = if e = 0 ∧ q.length = 1 then q.head? else none := by
  match e, q with
  | 0, [] => simp [getStaticPropertyName]
  | 0, [x] => simp [getStaticPropertyName]
  | 0, x :: y :: t => simp [getStaticPropertyName]
  | e + 1, q => simp [getStaticPropertyName]

/-- C6: an identifier key yields the identifier's name exactly when the
access is non-computed (`a.b`, or a non-computed property key `b:`); a
computed identifier key (`a[b]`) is indeterminate. -/
theorem C6_identifier_key_iff_non_computed (l : Loc) (c : Bool) (name : String) :
    getStaticPropertyName ⟨l, .memberExpression c (.identifier name)⟩
      = (if c then none else some name)
    ∧ getStaticPropertyName ⟨l, .property c (.identifier name)⟩
      = (if c then none else some name) := by
  cases c <;> simp [getStaticPropertyName, ASTNode.computed]

/-- C8: the analysis is a deterministic function of the captured options
and the completed scope graph: two runs over the same unmodified input
produce identical diagnostic lists, in the same order, with no hidden
state (the embedding is a pure function). -/
theorem C8_deterministic_function_of_input
    (a1 a2 : List String) (s1 s2 : Scope) (u1 u2 : List Scope)
    (ha : a1 = a2) (hs : s1 = s2) (hu : u1 = u2) :
    programExit a1 s1 u1 = programExit a2 s2 u2 := by
  subst ha; subst hs; subst hu; rfl

/-- C8 witness: two runs on the same concrete input agree. -/
theorem C8_witness :
    programExit ["log"] detScope [] = programExit ["log"] detScope [] :=
  C8_deterministic_function_of_input ["log"] ["log"] detScope detScope [] []
    rfl rfl rfl

/-- C2 counterexample: the claim fails at the static literal name `""`.
For the program `sails[""]` with allow-list `[""]`, the extracted name
`""` is in the allow-list, yet one diagnostic is produced, because the
truthiness guard in `isAllowed` short-circuits on the empty string
before consulting the allow-list. -/
theorem C2_counterexample :
    getStaticPropertyName c2Parent = some ""
    ∧ ([""] : List String).contains "" = true
    ∧ programExit [""] c2Scope [] = [⟨c2Parent, ⟨3, 4⟩, "unexpected", some ""⟩] := by
  decide

/-- C2 amended: for every non-shadowed reference to `sails` — whether
the variable is the host's zero-Definition record for the global or the
reference is unresolved and comes from the scope's `through` set — that
is the object of a member access with static extracted property name
`X`, the reference is flagged and reported (each of its occurrences
contributing exactly one diagnostic
`⟨parent, parent.loc, "unexpected", X⟩`) when `X` is not in the
allow-list; and no diagnostic is produced when `X` is in the allow-list,
provided `X` is non-empty (the empty name is always reported; see
C10). -/
theorem C2_amended_static_name_vs_allowlist
    (allowed : List String) (scope : Scope) (uppers : List Scope)
    (r : Reference) (c : Bool) (p : PropNode) (X : String)
    (hsh : sailsShadowed scope uppers = false)
    (hr : r ∈ sailsReferences scope uppers)
    (hkind : r.identifier.parent.kind = NodeKind.memberExpression c p)
    (hobj : r.identifier.isObjectOfParent = true)
    (hname : getStaticPropertyName r.identifier.parent = some X) :
    programExit allowed scope uppers
      = ((sailsReferences scope uppers).filter (isMemberAccessExceptAllowed allowed)).map
          report
    ∧ (X ∉ allowed →
        isMemberAccessExceptAllowed allowed r = true
        ∧ ((sailsReferences scope uppers).filter (isMemberAccessExceptAllowed allowed)).count r
            = (sailsReferences scope uppers).count r
        ∧ report r = ⟨r.identifier.parent, r.identifier.parent.loc, "unexpected", some X⟩
        ∧ report r ∈ programExit allowed scope uppers)
    ∧ (X ∈ allowed → X ≠ "" →
        isMemberAccessExceptAllowed allowed r = false
        ∧ ((sailsReferences scope uppers).filter (isMemberAccessExceptAllowed allowed)).count r
            = 0) := by
  have hpipe := programExit_eq_of_not_shadowed allowed scope uppers hsh
  refine ⟨hpipe, ?_, ?_⟩
  · intro hX
    have hal : isAllowed allowed r.identifier.parent = false := by
      simp [isAllowed, hname, hX]
    have hpred := isMemberAccess_true_of_not_allowed allowed r c p hkind hobj hal
    refine ⟨hpred, List.count_filter hpred, ?_, ?_⟩
    · simp [report, hname]
    · rw [hpipe]
      exact List.mem_map_of_mem report (List.mem_filter.mpr ⟨hr, hpred⟩)
  · intro hX hne
    have hal : isAllowed allowed r.identifier.parent = true := by
      simp [isAllowed, hname, hX, hne]
    have hpred : isMemberAccessExceptAllowed allowed r = false := by
      simp [isMemberAccessExceptAllowed, hkind, hal]
    exact ⟨hpred, count_filter_of_neg _ _ _ hpred⟩

/-- C2 amended witness: `sails.hook` with allow-list `["hook"]` is not
flagged; with allow-list `["config"]` it is flagged and reported. -/
theorem C2_amended_witness :
    isMemberAccessExceptAllowed ["config"] c2wRef = true
    ∧ isMemberAccessExceptAllowed ["hook"] c2wRef = false := by
  have h1 := C2_amended_static_name_vs_allowlist ["config"] c2wScope []
    c2wRef false (.identifier "hook") "hook" (by decide) (by decide)
    (by decide) (by decide) (by decide)
  have h2 := C2_amended_static_name_vs_allowlist ["hook"] c2wScope []
    c2wRef false (.identifier "hook") "hook" (by decide) (by decide)
    (by decide) (by decide) (by decide)
  exact ⟨(h1.2.1 (by decide)).1, (h2.2.2 (by decide) (by decide)).1⟩

/-- C3: a non-shadowed `sails` reference — from the found
zero-Definition variable or from the scope's `through` set — that is the
object of a member access with an indeterminate property name is always
flagged and reported, regardless of the allow-list. -/
theorem C3_indeterminate_always_reported
    (allowed : List String) (scope : Scope) (uppers : List Scope)
    (r : Reference) (c : Bool) (p : PropNode)
    (hsh : sailsShadowed scope uppers = false)
    (hr : r ∈ sailsReferences scope uppers)
    (hkind : r.identifier.parent.kind = NodeKind.memberExpression c p)
    (hobj : r.identifier.isObjectOfParent = true)
    (hname : getStaticPropertyName r.identifier.parent = none) :
    isMemberAccessExceptAllowed allowed r = true
    ∧ ((sailsReferences scope uppers).filter (isMemberAccessExceptAllowed allowed)).count r
        = (sailsReferences scope uppers).count r
    ∧ report r ∈ programExit allowed scope uppers := by
  have hal : isAllowed allowed r.identifier.parent = false := by
    simp [isAllowed, hname]
  have hpred := isMemberAccess_true_of_not_allowed allowed r c p hkind hobj hal
  refine ⟨hpred, List.count_filter hpred, ?_⟩
  rw [programExit_eq_of_not_shadowed allowed scope uppers hsh]
  exact List.mem_map_of_mem report (List.mem_filter.mpr ⟨hr, hpred⟩)

/-- C3 witness: `sails["a" + "b"]`, with `sails` never declared (the
reference reaches the rule through the scope's `through` set), is
flagged and reported even with a populated allow-list. -/
theorem C3_witness :
    isMemberAccessExceptAllowed ["config"] c3Ref = true
    ∧ ((sailsReferences c3Scope []).filter (isMemberAccessExceptAllowed ["config"])).count c3Ref
        = (sailsReferences c3Scope []).count c3Ref
    ∧ report c3Ref ∈ programExit ["config"] c3Scope [] :=
  C3_indeterminate_always_reported ["config"] c3Scope [] c3Ref true .other
    (by decide) (by decide) (by decide) (by decide) (by decide)

/-- C7 counterexample: against the claim's words, the schema REJECTS the
empty `allow` array (an array of unique, non-empty strings, vacuously)
because of `minItems: 1`, and ACCEPTS `allow: [""]` although the string
is empty: the `minItems` constraint is about the array, not the
strings. -/
theorem C7_counterexample :
    optionsValid [Json.obj [("allow", Json.arr [])]] = false
    ∧ optionsValidClaimed [Json.obj [("allow", Json.arr [])]] = true
    ∧ optionsValid [Json.obj [("allow", Json.arr [Json.str ""])]] = true
    ∧ optionsValidClaimed [Json.obj [("allow", Json.arr [Json.str ""])]] = false := by
  decide

/-- C7 amended: the configuration schema accepts an array of at most one
object; that object permits only the property `allow`, a NON-EMPTY array
of unique strings (the strings themselves may be empty); and absence of
configuration defaults to the empty allow-list. -/
theorem C7_amended_schema_and_default (opts : List Json) :
    optionsValid opts = optionsValidAmended opts ∧ createAllowed [] = [] := by
  refine ⟨?_, rfl⟩
  have hallow : ∀ j : Json, allowPropertyValid j = allowPropertyValidAmended j := by
    intro j
    cases j with
    | arr items =>
      cases items with
      | nil => rfl
      | cons h t =>
        have hle : 1 ≤ t.length + 1 := Nat.succ_le_succ (Nat.zero_le _)
        simp [allowPropertyValid, allowPropertyValidAmended, hle,
          Bool.and_comm, Bool.and_left_comm, Bool.and_assoc]
    | str s => rfl
    | num n => rfl
    | bool b => rfl
    | nullJ => rfl
    | obj fields => rfl
  have hobj : ∀ o : Json, optionObjectValid o = optionObjectValidAmended o := by
    intro o
    cases o with
    | obj fields =>
      have hf : (fun kv : String × Json => kv.1 == "allow" && allowPropertyValid kv.2)
          = (fun kv : String × Json => kv.1 == "allow" && allowPropertyValidAmended kv.2) :=
        funext fun kv => by rw [hallow]
      simp only [optionObjectValid, optionObjectValidAmended, hf]
    | str s => rfl
    | num n => rfl
    | bool b => rfl
    | nullJ => rfl
    | arr items => rfl
  match opts with
  | [] => rfl
  | [o] => exact hobj o
  | o1 :: o2 :: rest => rfl

/-- C9 counterexample: for the program `sails[key]` (indeterminate name)
the rule reports, but the diagnostic's `propertyName` payload is `null`
(`none` in the embedding): it is not set to any string at all, in
particular not to a rendering of the node, contrary to the claim's
fallback clause. -/
theorem C9_counterexample :
    getStaticPropertyName c9Parent = none
    ∧ programExit [] c9Scope [] = [⟨c9Parent, ⟨5, 2⟩, "unexpected", none⟩] := by
  decide

/-- C9 amended: for every reference flagged as a violation, when the
binding is not shadowed, the diagnostic is attached to the member-access
parent node at that node's source location, carries message-template id
`unexpected` (rendering to `Unexpected sails.\x7b\x7bpropertyName\x7d\x7d`),
and its `propertyName` payload is the extracted name when determinate
and `null` (`none`) when indeterminate; each occurrence of the flagged
reference contributes exactly one diagnostic. -/
theorem C9_amended_diagnostic_shape
    (allowed : List String) (scope : Scope) (uppers : List Scope)
    (r : Reference)
    (hsh : sailsShadowed scope uppers = false)
    (hr : r ∈ sailsReferences scope uppers)
    (hflag : isMemberAccessExceptAllowed allowed r = true) :
    report r = ⟨r.identifier.parent, r.identifier.parent.loc, "unexpected",
      getStaticPropertyName r.identifier.parent⟩
    ∧ report r ∈ programExit allowed scope uppers
    ∧ ((sailsReferences scope uppers).filter (isMemberAccessExceptAllowed allowed)).count r
        = (sailsReferences scope uppers).count r
    ∧ metaMessages.lookup "unexpected"
        = some "Unexpected sails.\x7b\x7bpropertyName\x7d\x7d" := by
  refine ⟨rfl, ?_, List.count_filter hflag, rfl⟩
  rw [programExit_eq_of_not_shadowed allowed scope uppers hsh]
  exact List.mem_map_of_mem report (List.mem_filter.mpr ⟨hr, hflag⟩)

/-- C9 amended witness: the diagnostic for `sails.models`, whose
reference reaches the rule through the scope's `through` set, has the
shape the amended claim describes. -/
theorem C9_amended_witness :
    report c9wRef = ⟨c9wParent, c9wParent.loc, "unexpected",
      getStaticPropertyName c9wParent⟩
    ∧ report c9wRef ∈ programExit [] c9wScope []
    ∧ ((sailsReferences c9wScope []).filter (isMemberAccessExceptAllowed [])).count c9wRef
        = (sailsReferences c9wScope []).count c9wRef
    ∧ metaMessages.lookup "unexpected"
        = some "Unexpected sails.\x7b\x7bpropertyName\x7d\x7d" :=
  C9_amended_diagnostic_shape [] c9wScope [] c9wRef
    (by decide) (by decide) (by decide)

/-- C10: a non-shadowed `sails` member access whose statically extracted
property name is the empty string is flagged and reported even when the
empty string is on the allow-list: the extracted `""` is falsy, so the
allow-list is never consulted, exactly as for an indeterminate name. -/
theorem C10_empty_name_bypasses_allowlist
    (allowed : List String) (scope : Scope) (uppers : List Scope)
    (r : Reference) (c : Bool) (p : PropNode)
    (hsh : sailsShadowed scope uppers = false)
    (hr : r ∈ sailsReferences scope uppers)
    (hkind : r.identifier.parent.kind = NodeKind.memberExpression c p)
    (hobj : r.identifier.isObjectOfParent = true)
    (hname : getStaticPropertyName r.identifier.parent = some "")
    (_hallow : "" ∈ allowed) :
    isMemberAccessExceptAllowed allowed r = true
    ∧ ((sailsReferences scope uppers).filter (isMemberAccessExceptAllowed allowed)).count r
        = (sailsReferences scope uppers).count r
    ∧ report r ∈ programExit allowed scope uppers
    ∧ (report r).propertyName = some "" := by
  have hal : isAllowed allowed r.identifier.parent = false := by
    simp [isAllowed, hname]
  have hpred := isMemberAccess_true_of_not_allowed allowed r c p hkind hobj hal
  refine ⟨hpred, List.count_filter hpred, ?_, ?_⟩
  · rw [programExit_eq_of_not_shadowed allowed scope uppers hsh]
    exact List.mem_map_of_mem report (List.mem_filter.mpr ⟨hr, hpred⟩)
  · simp [report, hname]

/-- C10 witness: `sails[""]` with allow-list `[""]` is flagged and its
diagnostic carries `propertyName = ""`. -/
theorem C10_witness :
    isMemberAccessExceptAllowed [""] c10Ref = true
    ∧ ((sailsReferences c10Scope []).filter (isMemberAccessExceptAllowed [""])).count c10Ref
        = (sailsReferences c10Scope []).count c10Ref
    ∧ report c10Ref ∈ programExit [""] c10Scope []
    ∧ (report c10Ref).propertyName = some "" :=
  C10_empty_name_bypasses_allowlist [""] c10Scope [] c10Ref true
    (.literal (.str "")) (by decide) (by decide) (by decide) (by decide)
    (by decide) (by decide)

end NoSails
